import Mathlib

/-!
A verification development for the TabNet forward pass implemented in
`tabnet.py`.  The decision-step loop of `TabNet.call`, the transform blocks,
the atentive mask generator, the relaxation bookkeeping and the entropy
penalty are embedded shallowly: batches are lists of rows (`List (List ℝ)`),
the learned operators (`Dense`, `BatchNormalization`) are opaque parameters
with the shape contract the code relies on, and the decision-step loop is a
fold of an explicit step function over `List.range num_decision_steps`.

The helpers `glu` and `sparsemax` are imported by `tabnet.py` from
`custom_objects`, a module that is not part of the sources; they are modelled
from the specification's wording (§4.1, §4.2).
-/

namespace TabNetModel

section Sparsemax

variable {α : Type*} [LinearOrderedField α]

/-- Modelled from the spec: `custom_objects.sparsemax` is absent from the
sources.  Per §4.2 the rows are sorted in descending order; this is the
descending sort. -/
def sortDesc (l : List α) : List α := List.insertionSort (· ≥ ·) l

/-- Modelled from the spec: `cumsum_k`, the sum of the first `k` sorted
entries. -/
def cumSum (s : List α) (k : ℕ) : α := (s.take k).sum

/-- Modelled from the spec: the support condition of sparsemax, "the `k`-th
sorted value exceeds `(cumsum_k - 1)/k`". -/
def sparsemaxCond (s : List α) (k : ℕ) : Prop :=
  0 < k ∧ (cumSum s k - 1) / (k : α) < s.getD (k - 1) 0

instance sparsemaxCondDecidable (s : List α) : DecidablePred (sparsemaxCond s) :=
  fun _ => instDecidableAnd

/-- Modelled from the spec: "find the largest `k`" satisfying the support
condition. -/
def sparsemaxK (s : List α) : ℕ := Nat.findGreatest (sparsemaxCond s) s.length

/-- Modelled from the spec: the threshold `τ = (cumsum_k - 1)/k`. -/
def sparsemaxTau (s : List α) : α := (cumSum s (sparsemaxK s) - 1) / (sparsemaxK s : α)

/-- Modelled from the spec: sparsemax, the Euclidean projection onto the
probability simplex, computed by the sort-and-threshold algorithm of §4.2:
"for each row, sort entries descending, find the largest `k` such that the
`k`-th sorted value exceeds `(cumsum_k - 1)/k`, compute threshold
`τ = (cumsum_k - 1)/k`, output `max(score - τ, 0)` per entry". -/
def sparsemax (l : List α) : List α :=
  l.map (fun z => max (z - sparsemaxTau (sortDesc l)) 0)

lemma sortDesc_perm (l : List α) : List.Perm (sortDesc l) l := List.perm_insertionSort _ l

lemma sortDesc_sorted (l : List α) : List.Sorted (· ≥ ·) (sortDesc l) :=
  List.sorted_insertionSort _ l

lemma sortDesc_length (l : List α) : (sortDesc l).length = l.length :=
  (sortDesc_perm l).length_eq

lemma sparsemaxCond_one (x : α) (xs : List α) : sparsemaxCond (x :: xs) 1 := by
  refine ⟨one_pos, ?_⟩
  have h1 : cumSum (x :: xs) 1 = x := by simp [cumSum]
  have h2 : (x :: xs).getD 0 0 = x := rfl
  rw [h1, h2]
  simp only [Nat.cast_one, div_one]
  linarith

lemma sparsemaxK_pos (s : List α) (h : s ≠ []) : 0 < sparsemaxK s := by
  obtain ⟨x, xs, rfl⟩ := List.exists_cons_of_ne_nil h
  have h1 : (1 : ℕ) ≤ (x :: xs).length := by simp
  exact lt_of_lt_of_le one_pos (Nat.le_findGreatest h1 (sparsemaxCond_one x xs))

lemma sparsemaxK_le (s : List α) : sparsemaxK s ≤ s.length := Nat.findGreatest_le _

lemma sparsemaxCond_sparsemaxK (s : List α) (h : s ≠ []) :
    sparsemaxCond s (sparsemaxK s) := by
  obtain ⟨x, xs, rfl⟩ := List.exists_cons_of_ne_nil h
  exact Nat.findGreatest_spec (by simp) (sparsemaxCond_one x xs)

lemma cumSum_succ (s : List α) (k : ℕ) (h : k < s.length) :
    cumSum s (k + 1) = cumSum s k + s.getD k 0 := by
  unfold cumSum
  rw [List.sum_take_succ _ _ h, List.getD_eq_getElem _ _ h]

/-- The maximality of `sparsemaxK` yields that the entry just past the support
is at most the threshold. -/
lemma getD_sparsemaxK_le_tau (s : List α) (h : s ≠ [])
    (hK : sparsemaxK s < s.length) : s.getD (sparsemaxK s) 0 ≤ sparsemaxTau s := by
  set K := sparsemaxK s with hKdef
  have hKpos : 0 < K := sparsemaxK_pos s h
  have hnc : ¬ sparsemaxCond s (K + 1) :=
    Nat.findGreatest_is_greatest (Nat.lt_succ_self _) (Nat.succ_le_of_lt hK)
  have hcond : ¬ ((cumSum s (K + 1) - 1) / ((K + 1 : ℕ) : α) < s.getD K 0) := by
    intro hlt
    exact hnc ⟨Nat.succ_pos _, by simpa using hlt⟩
  push_neg at hcond
  have hsum : cumSum s (K + 1) = cumSum s K + s.getD K 0 := cumSum_succ s K hK
  have hKcast : (0 : α) < (K : α) := by exact_mod_cast hKpos
  have hK1cast : (0 : α) < ((K + 1 : ℕ) : α) := by positivity
  rw [le_div_iff₀ hK1cast] at hcond
  unfold sparsemaxTau
  rw [← hKdef, le_div_iff₀ hKcast]
  have hcast : ((K + 1 : ℕ) : α) = (K : α) + 1 := by push_cast; ring
  rw [hcast, hsum] at hcond
  nlinarith [hcond]

/-- In a descending-sorted list, later entries are at most earlier ones. -/
lemma sorted_getD_anti (s : List α) (hs : List.Sorted (· ≥ ·) s) (i j : ℕ)
    (hij : i ≤ j) (hj : j < s.length) : s.getD j 0 ≤ s.getD i 0 := by
  have hi : i < s.length := lt_of_le_of_lt hij hj
  rw [List.getD_eq_getElem _ _ hi, List.getD_eq_getElem _ _ hj]
  rcases eq_or_lt_of_le hij with heq | hlt
  · subst heq; exact le_refl _
  · exact (List.pairwise_iff_getElem.mp hs) i j hi hj hlt

lemma tau_lt_getD_of_lt (s : List α) (h : s ≠ []) (hs : List.Sorted (· ≥ ·) s)
    (i : ℕ) (hi : i < sparsemaxK s) : sparsemaxTau s < s.getD i 0 := by
  have hK := sparsemaxK_pos s h
  have hKle := sparsemaxK_le s
  have hcond := sparsemaxCond_sparsemaxK s h
  have htau : sparsemaxTau s < s.getD (sparsemaxK s - 1) 0 := hcond.2
  refine lt_of_lt_of_le htau (sorted_getD_anti s hs i (sparsemaxK s - 1) ?_ ?_)
  · omega
  · omega

lemma getD_le_tau_of_ge (s : List α) (h : s ≠ []) (hs : List.Sorted (· ≥ ·) s)
    (i : ℕ) (hKi : sparsemaxK s ≤ i) (hi : i < s.length) :
    s.getD i 0 ≤ sparsemaxTau s := by
  have hK : sparsemaxK s < s.length := lt_of_le_of_lt hKi hi
  refine le_trans ?_ (getD_sparsemaxK_le_tau s h hK)
  exact sorted_getD_anti s hs (sparsemaxK s) i hKi hi

/-- Summing `max (x - c) 0` over a list whose entries are all at least `c`. -/
lemma sum_map_max_of_le (t : List α) (c : α) (h : ∀ x ∈ t, c ≤ x) :
    (t.map (fun x => max (x - c) 0)).sum = t.sum - (t.length : α) * c := by
  induction t with
  | nil => simp
  | cons a t ih =>
    have ha : c ≤ a := h a (List.mem_cons_self a t)
    have ht : ∀ x ∈ t, c ≤ x := fun x hx => h x (List.mem_cons_of_mem _ hx)
    simp only [List.map_cons, List.sum_cons, List.length_cons, ih ht,
      max_eq_left (sub_nonneg.mpr ha)]
    push_cast
    ring

/-- Summing `max (x - c) 0` over a list whose entries are all at most `c`. -/
lemma sum_map_max_of_ge (t : List α) (c : α) (h : ∀ x ∈ t, x ≤ c) :
    (t.map (fun x => max (x - c) 0)).sum = 0 := by
  refine List.sum_eq_zero ?_
  intro x hx
  obtain ⟨a, ha, rfl⟩ := List.mem_map.mp hx
  exact max_eq_right (sub_nonpos.mpr (h a ha))

/-- Every entry of a sparsemax output is non-negative. -/
theorem sparsemax_nonneg (l : List α) : ∀ x ∈ sparsemax l, 0 ≤ x := by
  intro x hx
  obtain ⟨a, _, rfl⟩ := List.mem_map.mp hx
  exact le_max_right _ _

/-- The entries of the sparsemax of a nonempty list sum to exactly 1: every
row is projected onto the probability simplex. -/
theorem sparsemax_sum (l : List α) (h : l ≠ []) : (sparsemax l).sum = 1 := by
  set s := sortDesc l with hsdef
  have hperm : List.Perm s l := sortDesc_perm l
  have hsl : s.length = l.length := hperm.length_eq
  have hsorted : List.Sorted (· ≥ ·) s := sortDesc_sorted l
  have hsne : s ≠ [] := by
    intro hnil
    apply h
    have := hsl
    rw [hnil] at this
    exact List.length_eq_zero.mp this.symm
  set K := sparsemaxK s with hKdef
  set τ := sparsemaxTau s with hτdef
  have hKpos : 0 < K := sparsemaxK_pos s hsne
  have hKle : K ≤ s.length := sparsemaxK_le s
  have hmap : (sparsemax l).sum = (s.map (fun z => max (z - τ) 0)).sum := by
    unfold sparsemax
    rw [← hsdef, ← hτdef]
    exact (List.Perm.sum_eq (List.Perm.map _ hperm)).symm
  rw [hmap]
  have hsplit : (s.map (fun z => max (z - τ) 0)).sum =
      ((s.take K).map (fun z => max (z - τ) 0)).sum +
      ((s.drop K).map (fun z => max (z - τ) 0)).sum := by
    conv_lhs => rw [← List.take_append_drop K s]
    rw [List.map_append, List.sum_append]
  rw [hsplit]
  have htake : ∀ x ∈ s.take K, τ ≤ x := by
    intro x hx
    obtain ⟨i, hilen, hieq⟩ := List.mem_iff_getElem.mp hx
    have hiK : i < K := lt_of_lt_of_le hilen (by simp)
    have hilen' : i < s.length := lt_of_lt_of_le hiK hKle
    have : (s.take K)[i] = s[i] := List.getElem_take ..
    rw [this] at hieq
    have := tau_lt_getD_of_lt s hsne hsorted i hiK
    rw [List.getD_eq_getElem _ _ hilen'] at this
    rw [← hieq]
    exact le_of_lt this
  have hdrop : ∀ x ∈ s.drop K, x ≤ τ := by
    intro x hx
    obtain ⟨j, hjlen, hjeq⟩ := List.mem_iff_getElem.mp hx
    have hjlen' : K + j < s.length := by
      have := List.length_drop K s
      omega
    have : (s.drop K)[j] = s[K + j] := by
      rw [List.getElem_drop]
    rw [this] at hjeq
    have := getD_le_tau_of_ge s hsne hsorted (K + j) (Nat.le_add_right _ _) hjlen'
    rw [List.getD_eq_getElem _ _ hjlen'] at this
    rw [← hjeq]
    exact this
  rw [sum_map_max_of_le _ _ htake, sum_map_max_of_ge _ _ hdrop]
  have hlen : (s.take K).length = K := by
    rw [List.length_take]
    omega
  have hKcast : ((K : ℕ) : α) ≠ 0 := by
    exact_mod_cast Nat.pos_iff_ne_zero.mp hKpos
  have hsum : (s.take K).sum = cumSum s K := rfl
  rw [hlen, hsum, hτdef]
  unfold sparsemaxTau
  rw [← hKdef]
  field_simp

/-- The length of a sparsemax output equals the length of its input. -/
theorem sparsemax_length (l : List α) : (sparsemax l).length = l.length := by
  unfold sparsemax
  rw [List.length_map]

/-- The sum of a sparsemax output is at most 1, also for the empty row. -/
theorem sparsemax_sum_le_one (l : List α) : (sparsemax l).sum ≤ 1 := by
  rcases eq_or_ne l [] with rfl | h
  · simp [sparsemax]
  · rw [sparsemax_sum l h]

/-- Every entry of a sparsemax output is at most 1. -/
theorem sparsemax_le_one (l : List α) : ∀ x ∈ sparsemax l, x ≤ 1 := by
  intro x hx
  refine le_trans (List.single_le_sum (sparsemax_nonneg l) x hx) ?_
  exact sparsemax_sum_le_one l

/-- Evaluation of sparsemax on a two-entry row whose first entry dominates:
all mass goes to the first entry. -/
theorem sparsemax_pair (a b : α) (h : b + 1 ≤ a) : sparsemax [a, b] = [1, 0] := by
  have hab : b ≤ a := by linarith
  have hsort : sortDesc [a, b] = [a, b] := by
    unfold sortDesc
    simp only [List.insertionSort, List.orderedInsert]
    rw [if_pos hab]
  have hK : sparsemaxK (sortDesc [a, b]) = 1 := by
    rw [hsort]
    unfold sparsemaxK
    have hlen : ([a, b] : List α).length = 2 := rfl
    rw [hlen]
    have hnc2 : ¬ sparsemaxCond [a, b] 2 := by
      intro hc
      have h2 : (cumSum [a, b] 2 - 1) / ((2 : ℕ) : α) < ([a, b] : List α).getD 1 0 := hc.2
      have hcs : cumSum [a, b] 2 = a + b := by simp [cumSum]
      have hg : ([a, b] : List α).getD 1 0 = b := rfl
      rw [hcs, hg] at h2
      have h2' : a + b - 1 < b * ((2 : ℕ) : α) := by
        rwa [div_lt_iff₀ (by positivity)] at h2
      push_cast at h2'
      linarith
    rw [Nat.findGreatest_succ, if_neg hnc2, Nat.findGreatest_succ, if_pos (sparsemaxCond_one a [b])]
  have hτ : sparsemaxTau (sortDesc [a, b]) = a - 1 := by
    unfold sparsemaxTau
    rw [hK, hsort]
    have hcs : cumSum [a, b] 1 = a := by simp [cumSum]
    rw [hcs]
    simp
  unfold sparsemax
  rw [hτ]
  have h1 : max (a - (a - 1)) 0 = 1 := by
    rw [max_eq_left (by linarith)]
    ring
  have h2 : max (b - (a - 1)) 0 = 0 := max_eq_right (by linarith)
  simp only [List.map_cons, List.map_nil, h1, h2]

end Sparsemax

section ForwardPass

/-- Elementwise sum of two rows (`tf` addition of equally-shaped tensors,
restricted to one row). -/
def vadd (a b : List ℝ) : List ℝ := List.zipWith (· + ·) a b

/-- Elementwise product of two rows (`tf.multiply` / `*` on equal shapes). -/
def vmul (a b : List ℝ) : List ℝ := List.zipWith (· * ·) a b

/-- Multiplying a row by the scalar `np.sqrt(0.5)`-style constant on the
right. -/
def vscale (a : List ℝ) (c : ℝ) : List ℝ := a.map (· * c)

/-- The logistic sigmoid used by the gated linear unit. -/
noncomputable def sigmoid (x : ℝ) : ℝ := 1 / (1 + Real.exp (-x))

/-- Modelled from the spec: `custom_objects.glu` is absent from the sources.
Per §4.1 and the glossary, GLU splits a `2n`-wide vector into halves `a, b`
of width `n` and returns `a ⊙ sigmoid(b)`. -/
noncomputable def glu (x : List ℝ) (n : ℕ) : List ℝ :=
  List.zipWith (fun a b => a * sigmoid b) (x.take n) (x.drop n)

/-- A `TransformBlock` from `tabnet.py`: a `Dense` affine projection without
bias followed by batch normalization.  The kernel is explicit (one
coefficient row per output unit); the batch-normalization operator is an
opaque learned rowwise function, per the spec's boundary (§1). -/
structure TransformBlock where
  weights : List (List ℝ)
  bn : List ℝ → List ℝ

/-- The `Dense(units, use_bias=False)` projection: one dot product per kernel
row. -/
def denseApply (w : List (List ℝ)) (v : List ℝ) : List ℝ :=
  w.map (fun r => (List.zipWith (· * ·) r v).sum)

/-- `TransformBlock.call`: `x = self.transform(inputs); x = self.bn(x)`. -/
def TransformBlock.apply (tb : TransformBlock) (v : List ℝ) : List ℝ :=
  tb.bn (denseApply tb.weights v)

/-- The construction-time configuration of `TabNet` (§6). -/
structure TabNetConfig where
  numFeatures : ℕ
  featureDim : ℕ
  outputDim : ℕ
  numDecisionSteps : ℕ
  relaxationFactor : ℝ
  epsilon : ℝ

/-- The learned operators of one `TabNet` instance: the input batch
normalization, the four transform blocks `transform_f1 .. transform_f4` and
the mask projection `transform_coef`.  They are created once in `__init__`
and reused by every decision step. -/
structure TabNetParams where
  inputBN : List ℝ → List ℝ
  f1 : TransformBlock
  f2 : TransformBlock
  f3 : TransformBlock
  f4 : TransformBlock
  coef : TransformBlock

/-- The constant `np.sqrt(0.5)` scaling the residual adds. -/
noncomputable def sqrtHalf : ℝ := Real.sqrt 0.5

/-- The four-block transform chain executed at the top of every decision
step of `TabNet.call` (lines 119-132): `glu(B(x))` for the first block, then
three residually-added gated blocks each scaled by `sqrt(0.5)`. -/
noncomputable def featureTransform (p : TabNetParams) (fd : ℕ) (x : List ℝ) : List ℝ :=
  let t1 := glu (p.f1.apply x) fd
  let t2 := vscale (vadd (glu (p.f2.apply t1) fd) t1) sqrtHalf
  let t3 := vscale (vadd (glu (p.f3.apply t2) fd) t2) sqrtHalf
  vscale (vadd (glu (p.f4.apply t3) fd) t3) sqrtHalf

/-- The decision-step dependent variables of `TabNet.call` (lines 107-114). -/
structure TabNetState where
  outputAggregated : List (List ℝ)
  maskedFeatures : List (List ℝ)
  maskValues : List (List ℝ)
  aggregatedMask : List (List ℝ)
  complementary : List (List ℝ)
  totalEntropy : ℝ

/-- `tf.reduce_mean` of a one-dimensional tensor. -/
noncomputable def listMean (l : List ℝ) : ℝ := l.sum / (l.length : ℝ)

/-- One iteration of the decision-step loop of `TabNet.call`
(lines 115-176), for loop index `ni`.  `features` is the batch-normalized
input tensor. -/
noncomputable def tabnetStep (cfg : TabNetConfig) (p : TabNetParams)
    (features : List (List ℝ)) (ni : ℕ) (st : TabNetState) : TabNetState :=
  let t4 := st.maskedFeatures.map (featureTransform p cfg.featureDim)
  let st1 :=
    if 0 < ni then
      let decisionOut := t4.map (fun r => (r.take cfg.outputDim).map (fun x => max x 0))
      let scaleAgg := decisionOut.map (fun r => r.sum / ((cfg.numDecisionSteps : ℝ) - 1))
      { st with
        outputAggregated := List.zipWith vadd st.outputAggregated decisionOut
        aggregatedMask := List.zipWith vadd st.aggregatedMask
          (List.zipWith (fun m c => m.map (· * c)) st.maskValues scaleAgg) }
    else st
  if ni < cfg.numDecisionSteps - 1 then
    let featuresForCoef := t4.map (List.drop cfg.outputDim)
    let mask := (List.zipWith vmul (featuresForCoef.map p.coef.apply)
      st1.complementary).map sparsemax
    { st1 with
      maskValues := mask
      complementary := List.zipWith vmul st1.complementary
        (mask.map (fun r => r.map (fun m => cfg.relaxationFactor - m)))
      totalEntropy := st1.totalEntropy +
        listMean (mask.map (fun r =>
          (r.map (fun m => -m * Real.log (m + cfg.epsilon))).sum)) /
          ((cfg.numDecisionSteps : ℝ) - 1)
      maskedFeatures := List.zipWith vmul mask features }
  else st1

/-- The zero/one initialization of the decision-step dependent variables
(lines 107-114). -/
def initState (cfg : TabNetConfig) (features : List (List ℝ)) : TabNetState where
  outputAggregated := features.map (fun _ => List.replicate cfg.outputDim 0)
  maskedFeatures := features
  maskValues := features.map (fun _ => List.replicate cfg.numFeatures 0)
  aggregatedMask := features.map (fun _ => List.replicate cfg.numFeatures 0)
  complementary := features.map (fun _ => List.replicate cfg.numFeatures 1)
  totalEntropy := 0

/-- The encoded input after the input batch normalization (lines 101-102). -/
noncomputable def normalizedFeatures (p : TabNetParams) (inputs : List (List ℝ)) :
    List (List ℝ) := inputs.map p.inputBN

/-- The loop state after the first `t` decision steps of a forward pass. -/
noncomputable def stateAfter (cfg : TabNetConfig) (p : TabNetParams)
    (inputs : List (List ℝ)) (t : ℕ) : TabNetState :=
  (List.range t).foldl
    (fun st ni => tabnetStep cfg p (normalizedFeatures p inputs) ni st)
    (initState cfg (normalizedFeatures p inputs))

/-- `TabNet.call`: the pair `(output_aggregated, total_entropy)` returned
after all `num_decision_steps` iterations (line 184). -/
noncomputable def tabnetCall (cfg : TabNetConfig) (p : TabNetParams)
    (inputs : List (List ℝ)) : List (List ℝ) × ℝ :=
  ((stateAfter cfg p inputs cfg.numDecisionSteps).outputAggregated,
   (stateAfter cfg p inputs cfg.numDecisionSteps).totalEntropy)

lemma stateAfter_zero (cfg : TabNetConfig) (p : TabNetParams)
    (inputs : List (List ℝ)) :
    stateAfter cfg p inputs 0 = initState cfg (normalizedFeatures p inputs) := rfl

lemma stateAfter_succ (cfg : TabNetConfig) (p : TabNetParams)
    (inputs : List (List ℝ)) (t : ℕ) :
    stateAfter cfg p inputs (t + 1) =
      tabnetStep cfg p (normalizedFeatures p inputs) t (stateAfter cfg p inputs t) := by
  unfold stateAfter
  rw [List.range_succ, List.foldl_append, List.foldl_cons, List.foldl_nil]

end ForwardPass

section StepLemmas

variable (cfg : TabNetConfig) (p : TabNetParams) (f : List (List ℝ)) (ni : ℕ)
variable (st : TabNetState)

lemma tabnetStep_maskValues_of_lt (h : ni < cfg.numDecisionSteps - 1) :
    (tabnetStep cfg p f ni st).maskValues =
      (List.zipWith vmul
        (((st.maskedFeatures.map (featureTransform p cfg.featureDim)).map
          (List.drop cfg.outputDim)).map p.coef.apply)
        st.complementary).map sparsemax := by
  simp only [tabnetStep]
  rw [if_pos h]
  all_goals split_ifs with h1 <;> rfl

lemma tabnetStep_complementary_of_lt (h : ni < cfg.numDecisionSteps - 1) :
    (tabnetStep cfg p f ni st).complementary =
      List.zipWith vmul st.complementary
        ((tabnetStep cfg p f ni st).maskValues.map
          (fun r => r.map (fun m => cfg.relaxationFactor - m))) := by
  simp only [tabnetStep]
  rw [if_pos h]
  all_goals split_ifs with h1 <;> rfl

lemma tabnetStep_totalEntropy_of_lt (h : ni < cfg.numDecisionSteps - 1) :
    (tabnetStep cfg p f ni st).totalEntropy =
      st.totalEntropy +
        listMean ((tabnetStep cfg p f ni st).maskValues.map (fun r =>
          (r.map (fun m => -m * Real.log (m + cfg.epsilon))).sum)) /
          ((cfg.numDecisionSteps : ℝ) - 1) := by
  simp only [tabnetStep]
  rw [if_pos h]
  all_goals split_ifs with h1 <;> rfl

lemma tabnetStep_maskedFeatures_of_lt (h : ni < cfg.numDecisionSteps - 1) :
    (tabnetStep cfg p f ni st).maskedFeatures =
      List.zipWith vmul (tabnetStep cfg p f ni st).maskValues f := by
  simp only [tabnetStep]
  rw [if_pos h]

lemma tabnetStep_maskValues_of_ge (h : ¬ ni < cfg.numDecisionSteps - 1) :
    (tabnetStep cfg p f ni st).maskValues = st.maskValues := by
  simp only [tabnetStep]
  rw [if_neg h]
  all_goals split_ifs with h1 <;> rfl

lemma tabnetStep_complementary_of_ge (h : ¬ ni < cfg.numDecisionSteps - 1) :
    (tabnetStep cfg p f ni st).complementary = st.complementary := by
  simp only [tabnetStep]
  rw [if_neg h]
  all_goals split_ifs with h1 <;> rfl

lemma tabnetStep_totalEntropy_of_ge (h : ¬ ni < cfg.numDecisionSteps - 1) :
    (tabnetStep cfg p f ni st).totalEntropy = st.totalEntropy := by
  simp only [tabnetStep]
  rw [if_neg h]
  all_goals split_ifs with h1 <;> rfl

lemma tabnetStep_maskedFeatures_of_ge (h : ¬ ni < cfg.numDecisionSteps - 1) :
    (tabnetStep cfg p f ni st).maskedFeatures = st.maskedFeatures := by
  simp only [tabnetStep]
  rw [if_neg h]
  all_goals split_ifs with h1 <;> rfl

lemma tabnetStep_outputAggregated_of_pos (h : 0 < ni) :
    (tabnetStep cfg p f ni st).outputAggregated =
      List.zipWith vadd st.outputAggregated
        ((st.maskedFeatures.map (featureTransform p cfg.featureDim)).map
          (fun r => (r.take cfg.outputDim).map (fun x => max x 0))) := by
  simp only [tabnetStep]
  rw [if_pos h]
  all_goals split_ifs with h1 <;> rfl

lemma tabnetStep_outputAggregated_of_zero (h : ni = 0) :
    (tabnetStep cfg p f ni st).outputAggregated = st.outputAggregated := by
  subst h
  simp only [tabnetStep]
  rw [if_neg (lt_irrefl 0)]
  split_ifs with h1 <;> rfl

lemma vmul_length (a b : List ℝ) : (vmul a b).length = min a.length b.length :=
  List.length_zipWith _ _ _

/-- A member of a `zipWith` comes from members of the two lists. -/
lemma mem_zipWith {β γ δ : Type*} {g : β → γ → δ} {x : δ} :
    ∀ {l1 : List β} {l2 : List γ}, x ∈ List.zipWith g l1 l2 →
      ∃ a b, a ∈ l1 ∧ b ∈ l2 ∧ x = g a b := by
  intro l1
  induction l1 with
  | nil => intro l2 hx; simp at hx
  | cons a l1 ih =>
    intro l2 hx
    cases l2 with
    | nil => simp at hx
    | cons b l2 =>
      rcases List.mem_cons.mp hx with heq | hmem
      · exact ⟨a, b, List.mem_cons_self a l1, List.mem_cons_self b l2, heq⟩
      · obtain ⟨a', b', ha', hb', heq'⟩ := ih hmem
        exact ⟨a', b', List.mem_cons_of_mem _ ha', List.mem_cons_of_mem _ hb', heq'⟩

end StepLemmas

section Invariants

variable (cfg : TabNetConfig) (p : TabNetParams) (inputs : List (List ℝ))

/-- Every row of the complementary aggregated mask keeps `num_features`
entries throughout the loop, provided `transform_coef` respects its output
shape. -/
lemma complementary_rows_length
    (hcoef : ∀ v, (p.coef.apply v).length = cfg.numFeatures) :
    ∀ t, ∀ r ∈ (stateAfter cfg p inputs t).complementary,
      r.length = cfg.numFeatures := by
  intro t
  induction t with
  | zero =>
    intro r hr
    obtain ⟨a, _, rfl⟩ := List.mem_map.mp hr
    exact List.length_replicate _ _
  | succ t ih =>
    intro r hr
    rw [stateAfter_succ] at hr
    by_cases h : t < cfg.numDecisionSteps - 1
    · rw [tabnetStep_complementary_of_lt _ _ _ _ _ h,
        tabnetStep_maskValues_of_lt _ _ _ _ _ h] at hr
      obtain ⟨a, b, ha, hb, rfl⟩ := mem_zipWith hr
      obtain ⟨m, hm, rfl⟩ := List.mem_map.mp hb
      obtain ⟨c, hc, rfl⟩ := List.mem_map.mp hm
      obtain ⟨rawRow, compRow, hraw, hcomp, rfl⟩ := mem_zipWith hc
      obtain ⟨v, _, rfl⟩ := List.mem_map.mp hraw
      have hrawlen : (p.coef.apply v).length = cfg.numFeatures := hcoef v
      have hcomplen : compRow.length = cfg.numFeatures := ih compRow hcomp
      have hclen : (vmul (p.coef.apply v) compRow).length = cfg.numFeatures := by
        rw [vmul_length, hrawlen, hcomplen, min_self]
      have hmlen : ((sparsemax (vmul (p.coef.apply v) compRow)).map
          (fun m => cfg.relaxationFactor - m)).length = cfg.numFeatures := by
        rw [List.length_map, sparsemax_length, hclen]
      rw [vmul_length, ih a ha, hmlen, min_self]
    · rw [tabnetStep_complementary_of_ge _ _ _ _ _ h] at hr
      exact ih r hr

end Invariants

section ClaimTheorems

/-- C1: at every decision step `ni < num_decision_steps - 1` the generated
mask (sparsemax of the budget-scaled `transform_coef` projection, lines
149-154) has rows lying on the probability simplex: entrywise non-negative
with entries summing exactly to 1. -/
theorem tabnet_mask_rows_simplex (cfg : TabNetConfig) (p : TabNetParams)
    (inputs : List (List ℝ)) (ni : ℕ)
    (hf : 1 ≤ cfg.numFeatures)
    (hcoef : ∀ v, (p.coef.apply v).length = cfg.numFeatures)
    (h : ni < cfg.numDecisionSteps - 1) :
    ∀ r ∈ (stateAfter cfg p inputs (ni + 1)).maskValues,
      (∀ x ∈ r, 0 ≤ x) ∧ r.sum = 1 := by
  intro r hr
  rw [stateAfter_succ, tabnetStep_maskValues_of_lt _ _ _ _ _ h] at hr
  obtain ⟨c, hc, rfl⟩ := List.mem_map.mp hr
  refine ⟨sparsemax_nonneg c, ?_⟩
  obtain ⟨rawRow, compRow, hraw, hcomp, rfl⟩ := mem_zipWith hc
  obtain ⟨v, _, rfl⟩ := List.mem_map.mp hraw
  have hlen : (vmul (p.coef.apply v) compRow).length = cfg.numFeatures := by
    rw [vmul_length, hcoef v,
      complementary_rows_length cfg p inputs hcoef ni compRow hcomp, min_self]
  have hne : vmul (p.coef.apply v) compRow ≠ [] := by
    intro hnil
    rw [hnil] at hlen
    simp at hlen
    omega
  exact sparsemax_sum _ hne

/-- C2: with `num_decision_steps = 1` the loop body runs once with `ni = 0`,
skipping both the aggregation branch (`ni > 0`) and the mask branch
(`ni < num_decision_steps - 1`), so the call returns the all-zero
`[batch, output_dim]` tensor and zero entropy. -/
theorem tabnet_single_step_degenerate (cfg : TabNetConfig) (p : TabNetParams)
    (inputs : List (List ℝ)) (h : cfg.numDecisionSteps = 1) :
    (tabnetCall cfg p inputs).1 =
      inputs.map (fun _ => List.replicate cfg.outputDim (0 : ℝ)) ∧
    (tabnetCall cfg p inputs).2 = 0 := by
  have hstate : stateAfter cfg p inputs cfg.numDecisionSteps =
      tabnetStep cfg p (normalizedFeatures p inputs) 0
        (initState cfg (normalizedFeatures p inputs)) := by
    rw [h, stateAfter_succ, stateAfter_zero]
  have hguard : ¬ (0 < cfg.numDecisionSteps - 1) := by omega
  constructor
  · show (stateAfter cfg p inputs cfg.numDecisionSteps).outputAggregated = _
    rw [hstate, tabnetStep_outputAggregated_of_zero _ _ _ _ _ rfl]
    show (normalizedFeatures p inputs).map _ = _
    rw [normalizedFeatures, List.map_map]
    rfl
  · show (stateAfter cfg p inputs cfg.numDecisionSteps).totalEntropy = 0
    rw [hstate, tabnetStep_totalEntropy_of_ge _ _ _ _ _ hguard]
    rfl

/-- C5: at every step `ni < num_decision_steps - 1` the entropy accumulator
grows by exactly the batch mean of the per-sample feature sums of
`-mask * log(mask + epsilon)`, divided by `num_decision_steps - 1`
(lines 164-167), and the final step adds nothing. -/
theorem tabnet_entropy_increment (cfg : TabNetConfig) (p : TabNetParams)
    (inputs : List (List ℝ)) (ni : ℕ) (h : ni < cfg.numDecisionSteps - 1) :
    ((stateAfter cfg p inputs (ni + 1)).totalEntropy =
      (stateAfter cfg p inputs ni).totalEntropy +
        listMean ((stateAfter cfg p inputs (ni + 1)).maskValues.map (fun r =>
          (r.map (fun m => -m * Real.log (m + cfg.epsilon))).sum)) /
          ((cfg.numDecisionSteps : ℝ) - 1)) ∧
    (stateAfter cfg p inputs cfg.numDecisionSteps).totalEntropy =
      (stateAfter cfg p inputs (cfg.numDecisionSteps - 1)).totalEntropy := by
  constructor
  · rw [stateAfter_succ]
    exact tabnetStep_totalEntropy_of_lt _ _ _ _ _ h
  · rcases Nat.eq_zero_or_pos cfg.numDecisionSteps with h0 | hpos
    · rw [h0]
    · obtain ⟨m, hm⟩ : ∃ m, cfg.numDecisionSteps = m + 1 :=
        ⟨cfg.numDecisionSteps - 1, by omega⟩
      rw [hm, stateAfter_succ, tabnetStep_totalEntropy_of_ge _ _ _ _ _ (by omega)]
      norm_num

/-- C6: at every step `ni < num_decision_steps - 1` the complementary budget
is updated entrywise to `budget * (relaxation_factor - mask)` using the mask
computed at that same step (lines 159-160), and the final step leaves it
unchanged. -/
theorem tabnet_budget_update_formula (cfg : TabNetConfig) (p : TabNetParams)
    (inputs : List (List ℝ)) (ni : ℕ) (h : ni < cfg.numDecisionSteps - 1) :
    ((stateAfter cfg p inputs (ni + 1)).complementary =
      List.zipWith (fun b m => List.zipWith
          (fun bj mj => bj * (cfg.relaxationFactor - mj)) b m)
        (stateAfter cfg p inputs ni).complementary
        (stateAfter cfg p inputs (ni + 1)).maskValues) ∧
    (stateAfter cfg p inputs cfg.numDecisionSteps).complementary =
      (stateAfter cfg p inputs (cfg.numDecisionSteps - 1)).complementary := by
  constructor
  · rw [stateAfter_succ, tabnetStep_complementary_of_lt _ _ _ _ _ h,
      ← stateAfter_succ]
    rw [List.zipWith_map_right]
    have hinner : ∀ a b : List ℝ, vmul a (b.map (fun m => cfg.relaxationFactor - m)) =
        List.zipWith (fun bj mj => bj * (cfg.relaxationFactor - mj)) a b := by
      intro a b
      unfold vmul
      rw [List.zipWith_map_right]
    simp only [hinner]
  · rcases Nat.eq_zero_or_pos cfg.numDecisionSteps with h0 | hpos
    · rw [h0]
    · obtain ⟨m, hm⟩ : ∃ m, cfg.numDecisionSteps = m + 1 :=
        ⟨cfg.numDecisionSteps - 1, by omega⟩
      rw [hm, stateAfter_succ, tabnetStep_complementary_of_ge _ _ _ _ _ (by omega)]
      norm_num

/-- C7: at every step `ni < num_decision_steps - 1` the features handed to
the next step's transform chain are the step's mask times the original
batch-normalized features (line 170), never the previous step's masked
features. -/
theorem tabnet_masked_features_from_original (cfg : TabNetConfig)
    (p : TabNetParams) (inputs : List (List ℝ)) (ni : ℕ)
    (h : ni < cfg.numDecisionSteps - 1) :
    (stateAfter cfg p inputs (ni + 1)).maskedFeatures =
      List.zipWith vmul (stateAfter cfg p inputs (ni + 1)).maskValues
        (normalizedFeatures p inputs) := by
  rw [stateAfter_succ, tabnetStep_maskedFeatures_of_lt _ _ _ _ _ h,
    ← stateAfter_succ]

/-- C8: the transform chain computes `out1 = GLU(B1 x)` with no residual,
then `out_k = (GLU(B_k out_{k-1}) + out_{k-1}) * sqrt(0.5)` for `k = 2..4`,
each `B_k` the bias-free affine kernel followed by batch normalization, and
the forward pass feeds every decision step's mask generation (and, for
`ni > 0`, its relu'd decision slice) through this chain built from the one
shared set of block instances `p`. -/
theorem tabnet_transform_chain_structure (cfg : TabNetConfig)
    (p : TabNetParams) (inputs : List (List ℝ)) (ni : ℕ)
    (h : ni < cfg.numDecisionSteps - 1) :
    (∀ x : List ℝ,
      featureTransform p cfg.featureDim x =
        vscale (vadd (glu (p.f4.bn (denseApply p.f4.weights
          (vscale (vadd (glu (p.f3.bn (denseApply p.f3.weights
            (vscale (vadd (glu (p.f2.bn (denseApply p.f2.weights
              (glu (p.f1.bn (denseApply p.f1.weights x)) cfg.featureDim)))
              cfg.featureDim)
              (glu (p.f1.bn (denseApply p.f1.weights x)) cfg.featureDim))
              sqrtHalf))) cfg.featureDim)
            (vscale (vadd (glu (p.f2.bn (denseApply p.f2.weights
              (glu (p.f1.bn (denseApply p.f1.weights x)) cfg.featureDim)))
              cfg.featureDim)
              (glu (p.f1.bn (denseApply p.f1.weights x)) cfg.featureDim))
              sqrtHalf)) sqrtHalf))) cfg.featureDim)
          (vscale (vadd (glu (p.f3.bn (denseApply p.f3.weights
            (vscale (vadd (glu (p.f2.bn (denseApply p.f2.weights
              (glu (p.f1.bn (denseApply p.f1.weights x)) cfg.featureDim)))
              cfg.featureDim)
              (glu (p.f1.bn (denseApply p.f1.weights x)) cfg.featureDim))
              sqrtHalf))) cfg.featureDim)
            (vscale (vadd (glu (p.f2.bn (denseApply p.f2.weights
              (glu (p.f1.bn (denseApply p.f1.weights x)) cfg.featureDim)))
              cfg.featureDim)
              (glu (p.f1.bn (denseApply p.f1.weights x)) cfg.featureDim))
              sqrtHalf)) sqrtHalf)) sqrtHalf) ∧
    ((stateAfter cfg p inputs (ni + 1)).maskValues =
      (List.zipWith vmul
        (((stateAfter cfg p inputs ni).maskedFeatures.map
            (featureTransform p cfg.featureDim)).map
          (fun r => p.coef.apply (r.drop cfg.outputDim)))
        (stateAfter cfg p inputs ni).complementary).map sparsemax) ∧
    (0 < ni →
      (stateAfter cfg p inputs (ni + 1)).outputAggregated =
        List.zipWith vadd (stateAfter cfg p inputs ni).outputAggregated
          ((stateAfter cfg p inputs ni).maskedFeatures.map
            (fun r => ((featureTransform p cfg.featureDim r).take
              cfg.outputDim).map (fun x => max x 0)))) := by
  refine ⟨fun x => rfl, ?_, ?_⟩
  · rw [stateAfter_succ, tabnetStep_maskValues_of_lt _ _ _ _ _ h]
    rw [List.map_map]
    rfl
  · intro hpos
    rw [stateAfter_succ, tabnetStep_outputAggregated_of_pos _ _ _ _ _ hpos]
    rw [List.map_map]
    rfl

/-- C3 (amended): the complementary budget entries stay non-negative, but
their upper bound grows geometrically: after `t` steps an entry is at most
`relaxation_factor ^ min t (num_decision_steps - 1)`. -/
lemma budget_bounds_aux (cfg : TabNetConfig) (p : TabNetParams)
    (inputs : List (List ℝ)) (hγ : 1 ≤ cfg.relaxationFactor) :
    ∀ t, ∀ r ∈ (stateAfter cfg p inputs t).complementary, ∀ x ∈ r,
      0 ≤ x ∧ x ≤ cfg.relaxationFactor ^ (min t (cfg.numDecisionSteps - 1)) := by
  intro t
  induction t with
  | zero =>
    intro r hr x hx
    obtain ⟨a, _, rfl⟩ := List.mem_map.mp hr
    have hx1 : x = 1 := List.eq_of_mem_replicate hx
    subst hx1
    constructor
    · norm_num
    · rw [Nat.zero_min, pow_zero]
  | succ t ih =>
    intro r hr x hx
    rw [stateAfter_succ] at hr
    by_cases h : t < cfg.numDecisionSteps - 1
    · rw [tabnetStep_complementary_of_lt _ _ _ _ _ h,
        tabnetStep_maskValues_of_lt _ _ _ _ _ h] at hr
      obtain ⟨a, b, ha, hb, rfl⟩ := mem_zipWith hr
      obtain ⟨u, w, hu, hw, rfl⟩ := mem_zipWith hx
      obtain ⟨mrow, hmrow, rfl⟩ := List.mem_map.mp hb
      obtain ⟨c, hc, rfl⟩ := List.mem_map.mp hmrow
      obtain ⟨m, hm, rfl⟩ := List.mem_map.mp hw
      have hm0 : 0 ≤ m := sparsemax_nonneg c m hm
      have hm1 : m ≤ 1 := sparsemax_le_one c m hm
      have hub := ih a ha u hu
      have hfac0 : 0 ≤ cfg.relaxationFactor - m := by linarith
      have hfacγ : cfg.relaxationFactor - m ≤ cfg.relaxationFactor := by linarith
      have hmin : min t (cfg.numDecisionSteps - 1) = t := by omega
      have hmin1 : min (t + 1) (cfg.numDecisionSteps - 1) = t + 1 := by omega
      rw [hmin] at hub
      constructor
      · exact mul_nonneg hub.1 hfac0
      · rw [hmin1, pow_succ]
        exact mul_le_mul hub.2 hfacγ hfac0 (by positivity)
    · rw [tabnetStep_complementary_of_ge _ _ _ _ _ h] at hr
      have hub := ih r hr x hx
      refine ⟨hub.1, le_trans hub.2 ?_⟩
      exact pow_le_pow_right₀ hγ (by omega)

/-- C3 (amended): throughout a forward pass every complementary-budget entry
is non-negative and at most `relaxation_factor ^ (num_decision_steps - 1)`;
the entries start at 1 and each of the updates at steps
`0 .. num_decision_steps - 2` multiplies them by a factor in
`[relaxation_factor - 1, relaxation_factor]`, so they can exceed
`relaxation_factor` itself but never this geometric bound. -/
theorem tabnet_budget_bounds (cfg : TabNetConfig) (p : TabNetParams)
    (inputs : List (List ℝ)) (hγ : 1 ≤ cfg.relaxationFactor)
    (t : ℕ) (ht : t ≤ cfg.numDecisionSteps) :
    ∀ r ∈ (stateAfter cfg p inputs t).complementary, ∀ x ∈ r,
      0 ≤ x ∧ x ≤ cfg.relaxationFactor ^ (cfg.numDecisionSteps - 1) := by
  intro r hr x hx
  have hub := budget_bounds_aux cfg p inputs hγ t r hr x hx
  refine ⟨hub.1, le_trans hub.2 ?_⟩
  exact pow_le_pow_right₀ hγ (by omega)

/-- Multiplying every entry of a list by a constant multiplies the sum. -/
lemma sum_map_mul_const (l : List ℝ) (c : ℝ) :
    (l.map (fun x => x * c)).sum = l.sum * c := by
  induction l with
  | nil => simp
  | cons a l ih => simp [ih, add_mul]

/-- A constant lower bound on all entries bounds the sum from below. -/
lemma const_mul_length_le_sum (l : List ℝ) (c : ℝ) (h : ∀ x ∈ l, c ≤ x) :
    c * (l.length : ℝ) ≤ l.sum := by
  induction l with
  | nil => simp
  | cons a l ih =>
    have ha : c ≤ a := h a (List.mem_cons_self a l)
    have hl : ∀ x ∈ l, c ≤ x := fun x hx => h x (List.mem_cons_of_mem _ hx)
    have := ih hl
    simp only [List.length_cons, List.sum_cons]
    push_cast
    nlinarith [this]

/-- `tf.reduce_mean` respects a nonpositive constant lower bound (also for
an empty batch, where it degenerates to `0/0 = 0`). -/
lemma le_listMean_of_le (l : List ℝ) (c : ℝ) (hc : c ≤ 0)
    (h : ∀ x ∈ l, c ≤ x) : c ≤ listMean l := by
  rcases eq_or_ne l [] with rfl | hne
  · simpa [listMean] using hc
  · have hlen : (0 : ℝ) < (l.length : ℝ) := by
      have := List.length_pos.mpr hne
      exact_mod_cast this
    unfold listMean
    rw [le_div_iff₀ hlen]
    exact const_mul_length_le_sum l c h

/-- One mask row's contribution to the entropy penalty is at least
`-log(1 + epsilon)`: since the row is a simplex point, its entries are in
`[0, 1]` and sum to at most `1`. -/
lemma entropy_row_lower (ε : ℝ) (hε : 0 < ε) (r : List ℝ)
    (hnn : ∀ x ∈ r, 0 ≤ x) (hle : ∀ x ∈ r, x ≤ 1) (hsum : r.sum ≤ 1) :
    -Real.log (1 + ε) ≤ (r.map (fun m => -m * Real.log (m + ε))).sum := by
  set L := Real.log (1 + ε) with hLdef
  have hL0 : 0 ≤ L := Real.log_nonneg (by linarith)
  have hpt : ∀ m ∈ r, m * (-L) ≤ -m * Real.log (m + ε) := by
    intro m hm
    have h0 : 0 ≤ m := hnn m hm
    have h1 : m ≤ 1 := hle m hm
    have hlog : Real.log (m + ε) ≤ L := by
      rw [hLdef]
      exact Real.log_le_log (by linarith) (by linarith)
    nlinarith [mul_le_mul_of_nonneg_left hlog h0]
  have hsle : (r.map (fun m => m * (-L))).sum ≤
      (r.map (fun m => -m * Real.log (m + ε))).sum :=
    List.sum_le_sum hpt
  rw [sum_map_mul_const] at hsle
  nlinarith [hsle]

/-- C4 (amended): the total entropy penalty is bounded below by
`-log(1 + epsilon)` (so it is at least `-epsilon`, but it is not
non-negative). -/
theorem tabnet_total_entropy_lower_bound (cfg : TabNetConfig)
    (p : TabNetParams) (inputs : List (List ℝ)) (hε : 0 < cfg.epsilon) :
    -Real.log (1 + cfg.epsilon) ≤ (tabnetCall cfg p inputs).2 := by
  set L := Real.log (1 + cfg.epsilon) with hLdef
  have hL0 : 0 ≤ L := Real.log_nonneg (by linarith)
  set d : ℝ := (cfg.numDecisionSteps : ℝ) - 1 with hddef
  have haux : ∀ t, -((min t (cfg.numDecisionSteps - 1) : ℕ) : ℝ) * (L / d) ≤
      (stateAfter cfg p inputs t).totalEntropy := by
    intro t
    induction t with
    | zero =>
      have hmin : min 0 (cfg.numDecisionSteps - 1) = 0 := Nat.zero_min _
      rw [hmin]
      have hE : (stateAfter cfg p inputs 0).totalEntropy = 0 := rfl
      rw [hE]
      norm_num
    | succ t ih =>
      rw [stateAfter_succ]
      by_cases h : t < cfg.numDecisionSteps - 1
      · rw [tabnetStep_totalEntropy_of_lt _ _ _ _ _ h]
        have hd1 : (1 : ℝ) ≤ d := by
          rw [hddef]
          have : 2 ≤ cfg.numDecisionSteps := by omega
          have h2 : (2 : ℝ) ≤ (cfg.numDecisionSteps : ℝ) := by exact_mod_cast this
          linarith
        have hd0 : (0 : ℝ) < d := by linarith
        have hmean : -L ≤ listMean
            (((tabnetStep cfg p (normalizedFeatures p inputs) t
              (stateAfter cfg p inputs t)).maskValues).map (fun r =>
              (r.map (fun m => -m * Real.log (m + cfg.epsilon))).sum)) := by
          refine le_listMean_of_le _ _ (by linarith) ?_
          intro x hx
          obtain ⟨row, hrow, rfl⟩ := List.mem_map.mp hx
          rw [tabnetStep_maskValues_of_lt _ _ _ _ _ h] at hrow
          obtain ⟨c, _, rfl⟩ := List.mem_map.mp hrow
          exact entropy_row_lower cfg.epsilon hε (sparsemax c)
            (sparsemax_nonneg c) (sparsemax_le_one c) (sparsemax_sum_le_one c)
        have hdiv : -L / d ≤ listMean
            (((tabnetStep cfg p (normalizedFeatures p inputs) t
              (stateAfter cfg p inputs t)).maskValues).map (fun r =>
              (r.map (fun m => -m * Real.log (m + cfg.epsilon))).sum)) / d :=
          (div_le_div_iff_of_pos_right hd0).mpr hmean
        have hmin : min (t + 1) (cfg.numDecisionSteps - 1) =
            min t (cfg.numDecisionSteps - 1) + 1 := by omega
        rw [hmin, ← hddef]
        have hc : ((min t (cfg.numDecisionSteps - 1) + 1 : ℕ) : ℝ) =
            ((min t (cfg.numDecisionSteps - 1) : ℕ) : ℝ) + 1 := by
          push_cast
          ring
        rw [hc]
        have hexpand : -(((min t (cfg.numDecisionSteps - 1) : ℕ) : ℝ) + 1) * (L / d) =
            (-((min t (cfg.numDecisionSteps - 1) : ℕ) : ℝ) * (L / d)) + (-(L / d)) := by
          ring
        rw [hexpand]
        refine add_le_add ih ?_
        rw [← neg_div]
        exact hdiv
      · rw [tabnetStep_totalEntropy_of_ge _ _ _ _ _ h]
        have hmin : min (t + 1) (cfg.numDecisionSteps - 1) =
            min t (cfg.numDecisionSteps - 1) := by omega
        rw [hmin]
        exact ih
  have hfin := haux cfg.numDecisionSteps
  show -L ≤ (stateAfter cfg p inputs cfg.numDecisionSteps).totalEntropy
  rcases le_or_lt cfg.numDecisionSteps 1 with hN | hN
  · have hmin : min cfg.numDecisionSteps (cfg.numDecisionSteps - 1) = 0 := by omega
    rw [hmin] at hfin
    simp only [Nat.cast_zero, neg_zero, zero_mul] at hfin
    linarith
  · have hmin : min cfg.numDecisionSteps (cfg.numDecisionSteps - 1) =
        cfg.numDecisionSteps - 1 := by omega
    rw [hmin] at hfin
    have hdeq : d = ((cfg.numDecisionSteps - 1 : ℕ) : ℝ) := by
      rw [hddef]
      have : 1 ≤ cfg.numDecisionSteps := by omega
      push_cast [this]
      ring
    have hdne : ((cfg.numDecisionSteps - 1 : ℕ) : ℝ) ≠ 0 := by
      have : 1 ≤ cfg.numDecisionSteps - 1 := by omega
      have h1 : (1 : ℝ) ≤ ((cfg.numDecisionSteps - 1 : ℕ) : ℝ) := by exact_mod_cast this
      linarith
    have hval : -((cfg.numDecisionSteps - 1 : ℕ) : ℝ) *
        (L / ((cfg.numDecisionSteps - 1 : ℕ) : ℝ)) = -L := by
      rw [neg_mul, ← mul_div_assoc, mul_div_cancel_left₀ _ hdne]
    rw [hdeq, hval] at hfin
    exact hfin

end ClaimTheorems

section ShapeModel

/-!
Width-level semantics of `TabNet.call`, tracking only the trailing (feature)
dimension of every tensor.  TensorFlow's slicing `x[:, :n]` / `x[:, n:]`
clamps at the tensor width, `Dense(units)` always produces `units` columns,
and binary elementwise operations broadcast two widths exactly when they are
equal or one of them is 1 — otherwise the operation raises, which the model
renders as `none`.
-/

/-- TensorFlow broadcasting of the feature dimension for `+` and `*`. -/
def broadcastDim (a b : ℕ) : Option ℕ :=
  if a = b then some a else if a = 1 then some b else if b = 1 then some a else none

/-- Width of `glu(x, n) = x[:, :n] * sigmoid(x[:, n:])` on a width-`w`
input. -/
def gluDim (n w : ℕ) : ℕ := min n (w - n)

/-- The widths of the loop-carried tensors of `TabNet.call`. -/
structure ShapeState where
  outputAggregated : ℕ
  maskedFeatures : ℕ
  maskValues : ℕ
  aggregatedMask : ℕ
  complementary : ℕ
deriving DecidableEq, Repr

/-- Width semantics of one decision-step iteration of `TabNet.call`:
`numFeatures / featureDim / outputDim / numDecisionSteps` are the
construction parameters; the result is `none` when a tensor operation
would raise a shape error. -/
def tabnetStepW (numFeatures featureDim outputDim numDecisionSteps : ℕ)
    (ni : ℕ) (st : ShapeState) : Option ShapeState := do
  let t1 := gluDim featureDim (2 * featureDim)
  let t2 ← broadcastDim (gluDim featureDim (2 * featureDim)) t1
  let t3 ← broadcastDim (gluDim featureDim (2 * featureDim)) t2
  let t4 ← broadcastDim (gluDim featureDim (2 * featureDim)) t3
  let st1 ←
    if 0 < ni then do
      let decisionW := min outputDim t4
      let outW ← broadcastDim st.outputAggregated decisionW
      let mw ← broadcastDim st.maskValues 1
      let aggW ← broadcastDim st.aggregatedMask mw
      pure { st with outputAggregated := outW, aggregatedMask := aggW }
    else pure st
  if ni < numDecisionSteps - 1 then do
    let maskW ← broadcastDim numFeatures st1.complementary
    let compW ← broadcastDim st1.complementary maskW
    let mfW ← broadcastDim maskW st1.maskedFeatures
    pure { st1 with maskValues := maskW, complementary := compW,
                    maskedFeatures := mfW }
  else pure st1

/-- Initial widths of the loop-carried tensors (lines 107-114), for an
encoded input of width `inputW`. -/
def initStateW (numFeatures outputDim inputW : ℕ) : ShapeState where
  outputAggregated := outputDim
  maskedFeatures := inputW
  maskValues := numFeatures
  aggregatedMask := numFeatures
  complementary := numFeatures

/-- Width semantics of a whole `TabNet.call` forward pass. -/
def tabnetCallW (numFeatures featureDim outputDim numDecisionSteps inputW : ℕ) :
    Option ShapeState :=
  (List.range numDecisionSteps).foldl
    (fun ost ni => ost >>= tabnetStepW numFeatures featureDim outputDim numDecisionSteps ni)
    (some (initStateW numFeatures outputDim inputW))

lemma broadcastDim_self (a : ℕ) : broadcastDim a a = some a := by
  unfold broadcastDim
  rw [if_pos rfl]

lemma broadcastDim_one_right (a : ℕ) : broadcastDim a 1 = some a := by
  unfold broadcastDim
  rcases eq_or_ne a 1 with rfl | h
  · rw [if_pos rfl]
  · rw [if_neg h, if_neg h, if_pos rfl]

lemma broadcastDim_none (a b : ℕ) (hab : a ≠ b) (ha : a ≠ 1) (hb : b ≠ 1) :
    broadcastDim a b = none := by
  unfold broadcastDim
  rw [if_neg hab, if_neg ha, if_neg hb]

lemma gluDim_self (fd : ℕ) : gluDim fd (2 * fd) = fd := by
  unfold gluDim
  omega

/-- Once a shape error occurred the rest of the loop keeps it. -/
lemma foldW_none (g : Option ShapeState → ℕ → Option ShapeState)
    (hg : ∀ ni, g none ni = none) :
    ∀ l : List ℕ, l.foldl g none = none := by
  intro l
  induction l with
  | nil => rfl
  | cons a l ih =>
    rw [List.foldl_cons, hg a]
    exact ih

/-- A state every step maps to itself survives the whole loop. -/
lemma foldW_fixed (g : Option ShapeState → ℕ → Option ShapeState)
    (S : ShapeState) (hg : ∀ ni, g (some S) ni = some S) :
    ∀ l : List ℕ, l.foldl g (some S) = some S := by
  intro l
  induction l with
  | nil => rfl
  | cons a l ih =>
    rw [List.foldl_cons, hg a]
    exact ih

/-- The steady state of widths in a well-configured pass. -/
def steadyW (numFeatures outputDim : ℕ) : ShapeState where
  outputAggregated := outputDim
  maskedFeatures := numFeatures
  maskValues := numFeatures
  aggregatedMask := numFeatures
  complementary := numFeatures

lemma tabnetStepW_steady (nf fd od N ni : ℕ) (hod : od ≤ fd) :
    tabnetStepW nf fd od N ni (steadyW nf od) = some (steadyW nf od) := by
  unfold tabnetStepW steadyW
  by_cases h : 0 < ni <;> by_cases h2 : ni < N - 1 <;>
    simp [h, h2, gluDim_self, broadcastDim_self, broadcastDim_one_right,
      min_eq_left hod]

lemma tabnetStepW_zero (nf fd od N : ℕ) (hN : 2 ≤ N) (inputW : ℕ)
    (hin : inputW = nf) :
    tabnetStepW nf fd od N 0 (initStateW nf od inputW) = some (steadyW nf od) := by
  subst hin
  unfold tabnetStepW initStateW steadyW
  have h2 : 0 < N - 1 := by omega
  simp [gluDim_self, broadcastDim_self, h2]

/-- When `featureDim ≥ 2` and `outputDim > featureDim`, the first aggregating
step (`ni = 1`) raises: the relu'd decision slice is clamped to width
`featureDim`, which neither equals `outputDim` nor broadcasts against it. -/
lemma tabnetStepW_fail (nf fd od N : ℕ) (hfd : 2 ≤ fd) (hod : fd < od) :
    tabnetStepW nf fd od N 1 (steadyW nf od) = none := by
  unfold tabnetStepW steadyW
  have hnone : broadcastDim od fd = none :=
    broadcastDim_none od fd (by omega) (by omega) (by omega)
  simp [gluDim_self, min_eq_right (le_of_lt hod), hnone, broadcastDim_self,
    broadcastDim_one_right]

/-- C9 (amended): for `numDecisionSteps ≥ 2` and `featureDim ≥ 2` (and the
encoded input width matching `numFeatures`), the forward pass raises a shape
error exactly when `outputDim > featureDim` — the relevant threshold is
`featureDim`, not `2 * featureDim`. -/
theorem tabnet_shape_failure_iff (nf fd od N : ℕ) (hN : 2 ≤ N) (hfd : 2 ≤ fd) :
    tabnetCallW nf fd od N nf = none ↔ fd < od := by
  obtain ⟨m, hm⟩ : ∃ m, N = m + 2 := ⟨N - 2, by omega⟩
  have hsplit : List.range N = 0 :: 1 :: List.range' 2 m := by
    rw [hm, List.range_eq_range', List.range'_succ, List.range'_succ]
  have hg0 : (some (initStateW nf od nf) >>= tabnetStepW nf fd od N 0) =
      some (steadyW nf od) := by
    rw [Option.bind_eq_bind, Option.some_bind']
    exact tabnetStepW_zero nf fd od N (by omega) nf rfl
  have hsome : od ≤ fd → tabnetCallW nf fd od N nf = some (steadyW nf od) := by
    intro hod
    unfold tabnetCallW
    rw [hsplit, List.foldl_cons, List.foldl_cons, hg0]
    have hg1 : (some (steadyW nf od) >>= tabnetStepW nf fd od N 1) =
        some (steadyW nf od) := by
      rw [Option.bind_eq_bind, Option.some_bind']
      exact tabnetStepW_steady nf fd od N 1 hod
    rw [hg1]
    refine foldW_fixed _ _ ?_ _
    intro ni
    show some (steadyW nf od) >>= tabnetStepW nf fd od N ni = _
    rw [Option.bind_eq_bind, Option.some_bind']
    exact tabnetStepW_steady nf fd od N ni hod
  have hfail : fd < od → tabnetCallW nf fd od N nf = none := by
    intro hlt
    unfold tabnetCallW
    rw [hsplit, List.foldl_cons, List.foldl_cons, hg0]
    have hg1 : (some (steadyW nf od) >>= tabnetStepW nf fd od N 1) =
        (none : Option ShapeState) := by
      rw [Option.bind_eq_bind, Option.some_bind']
      exact tabnetStepW_fail nf fd od N hfd hlt
    rw [hg1]
    exact foldW_none _ (fun ni => rfl) _
  constructor
  · intro hnone
    by_contra hlt
    push_neg at hlt
    rw [hsome hlt] at hnone
    exact Option.noConfusion hnone
  · intro hlt
    exact hfail hlt

end ShapeModel

section Heads

/-- The attributes `self.activations` / `self.total_entropy` that
`TabNetClassification.call` and `TabNetRegression.call` assign on every
invocation. -/
structure HeadState where
  activations : List (List ℝ)
  total_entropy : ℝ

/-- The `softmax` activation of the classification head's `Dense` layer. -/
noncomputable def softmaxRow (v : List ℝ) : List ℝ :=
  v.map (fun x => Real.exp x / (v.map Real.exp).sum)

/-- `TabNetClassification.call` (lines 217-221): runs the core, stores the
pair into the `activations` / `total_entropy` attributes (modelled as the
returned `HeadState`, replacing whatever state the object held before), and
returns only the softmax projection of the activations. -/
noncomputable def classificationCall (cfg : TabNetConfig) (p : TabNetParams)
    (clfW : List (List ℝ)) (inputs : List (List ℝ)) (_st : HeadState) :
    List (List ℝ) × HeadState :=
  let act := (tabnetCall cfg p inputs).1
  let ent := (tabnetCall cfg p inputs).2
  (act.map (fun r => softmaxRow (denseApply clfW r)),
   { activations := act, total_entropy := ent })

/-- `TabNetRegression.call` (lines 254-257): same state overwrite, returning
only the bias-free linear projection of the activations. -/
noncomputable def regressionCall (cfg : TabNetConfig) (p : TabNetParams)
    (regW : List (List ℝ)) (inputs : List (List ℝ)) (_st : HeadState) :
    List (List ℝ) × HeadState :=
  let act := (tabnetCall cfg p inputs).1
  let ent := (tabnetCall cfg p inputs).2
  (act.map (denseApply regW), { activations := act, total_entropy := ent })

/-- C10: both heads return only their projection of the core's aggregated
output — the entropy penalty is not part of the return value — while the
core's pair is written into the `activations` / `total_entropy` attributes,
overwriting them independently of whatever they held before; the entropy is
reachable only through that attribute state. -/
theorem tabnet_head_side_effect (cfg : TabNetConfig) (p : TabNetParams)
    (clfW regW : List (List ℝ)) (inputs : List (List ℝ)) :
    ∀ st st' : HeadState,
      classificationCall cfg p clfW inputs st =
        classificationCall cfg p clfW inputs st' ∧
      (classificationCall cfg p clfW inputs st).1 =
        (tabnetCall cfg p inputs).1.map (fun r => softmaxRow (denseApply clfW r)) ∧
      (classificationCall cfg p clfW inputs st).2 =
        { activations := (tabnetCall cfg p inputs).1,
          total_entropy := (tabnetCall cfg p inputs).2 } ∧
      regressionCall cfg p regW inputs st =
        regressionCall cfg p regW inputs st' ∧
      (regressionCall cfg p regW inputs st).1 =
        (tabnetCall cfg p inputs).1.map (denseApply regW) ∧
      (regressionCall cfg p regW inputs st).2 =
        { activations := (tabnetCall cfg p inputs).1,
          total_entropy := (tabnetCall cfg p inputs).2 } :=
  fun _ _ => ⟨rfl, rfl, rfl, rfl, rfl, rfl⟩

end Heads

section ConcreteInstances

/-- A transform block whose batch normalization discards its input; the
transform chain's values are irrelevant to the mask pipeline below. -/
def cBlock : TransformBlock := ⟨[], fun _ => []⟩

/-- A `transform_coef` instance whose batch normalization has zero scale and
shift `[10, 0]`, so the mask projection is the constant row `[10, 0]`. -/
noncomputable def cCoef : TransformBlock := ⟨[], fun _ => [10, 0]⟩

/-- Concrete learned operators: identity input normalization, trivial chain
blocks and the constant mask projection. -/
noncomputable def cParams : TabNetParams := ⟨id, cBlock, cBlock, cBlock, cBlock, cCoef⟩

/-- A batch holding the single encoded sample `[1, 1]`. -/
noncomputable def cInputs : List (List ℝ) := [[1, 1]]

/-- A family of configurations with two features, `feature_dim = output_dim
= 1`, and chosen step count / relaxation factor. -/
noncomputable def cCfg (n : ℕ) (γ : ℝ) : TabNetConfig :=
  ⟨2, 1, 1, n, γ, 1e-5⟩

lemma cParams_coef_apply (v : List ℝ) : cParams.coef.apply v = [10, 0] := rfl

lemma cNormalized : normalizedFeatures cParams cInputs = [[1, 1]] := rfl

lemma cMask1 (n : ℕ) (γ : ℝ) (h : 0 < n - 1) :
    (stateAfter (cCfg n γ) cParams cInputs 1).maskValues = [[1, 0]] := by
  rw [stateAfter_succ, tabnetStep_maskValues_of_lt _ _ _ _ _ h]
  have h0 : stateAfter (cCfg n γ) cParams cInputs 0 =
      initState (cCfg n γ) [[1, 1]] := rfl
  rw [h0]
  simp only [initState, List.map_cons, List.map_nil, cParams_coef_apply,
    List.zipWith_cons_cons, List.zipWith_nil_right]
  have hv : vmul [10, 0] (List.replicate (cCfg n γ).numFeatures (1 : ℝ)) =
      [10, 0] := by
    show vmul [10, 0] [1, 1] = [10, 0]
    norm_num [vmul]
  rw [hv, sparsemax_pair (10 : ℝ) 0 (by norm_num)]

lemma cMF1 (n : ℕ) (γ : ℝ) (h : 0 < n - 1) :
    (stateAfter (cCfg n γ) cParams cInputs 1).maskedFeatures = [[1, 0]] := by
  rw [stateAfter_succ, tabnetStep_maskedFeatures_of_lt _ _ _ _ _ h,
    ← stateAfter_succ, cMask1 n γ h, cNormalized]
  norm_num [vmul]

lemma cComp1 (n : ℕ) (h : 0 < n - 1) :
    (stateAfter (cCfg n 2) cParams cInputs 1).complementary = [[1, 2]] := by
  rw [stateAfter_succ, tabnetStep_complementary_of_lt _ _ _ _ _ h,
    ← stateAfter_succ, cMask1 n 2 h]
  have hcomp : (stateAfter (cCfg n 2) cParams cInputs 0).complementary =
      [[1, 1]] := rfl
  rw [hcomp]
  norm_num [vmul, cCfg]

lemma cMask2 (n : ℕ) (h2 : 1 < n - 1) :
    (stateAfter (cCfg n 2) cParams cInputs 2).maskValues = [[1, 0]] := by
  have h1 : 0 < n - 1 := by omega
  rw [stateAfter_succ, tabnetStep_maskValues_of_lt _ _ _ _ _ h2,
    cMF1 n 2 h1, cComp1 n h1]
  simp only [List.map_cons, List.map_nil, cParams_coef_apply,
    List.zipWith_cons_cons, List.zipWith_nil_right]
  have hv : vmul [10, 0] [(1 : ℝ), 2] = [10, 0] := by norm_num [vmul]
  rw [hv, sparsemax_pair (10 : ℝ) 0 (by norm_num)]

lemma cComp2 (n : ℕ) (h2 : 1 < n - 1) :
    (stateAfter (cCfg n 2) cParams cInputs 2).complementary = [[1, 4]] := by
  have h1 : 0 < n - 1 := by omega
  rw [stateAfter_succ, tabnetStep_complementary_of_lt _ _ _ _ _ h2,
    ← stateAfter_succ, cMask2 n h2, cComp1 n h1]
  norm_num [vmul, cCfg]

lemma cEntropy2 :
    (stateAfter (cCfg 2 1.5) cParams cInputs 2).totalEntropy =
      -Real.log (1 + (cCfg 2 1.5).epsilon) := by
  have h1 : (0 : ℕ) < (cCfg 2 1.5).numDecisionSteps - 1 := by norm_num [cCfg]
  have hE1 : (stateAfter (cCfg 2 1.5) cParams cInputs 1).totalEntropy =
      -Real.log (1 + (cCfg 2 1.5).epsilon) := by
    rw [stateAfter_succ, tabnetStep_totalEntropy_of_lt _ _ _ _ _ h1,
      ← stateAfter_succ, cMask1 2 1.5 h1]
    have hE0 : (stateAfter (cCfg 2 1.5) cParams cInputs 0).totalEntropy = 0 := rfl
    rw [hE0]
    show (0 : ℝ) + listMean [([(1 : ℝ), 0].map
      (fun m => -m * Real.log (m + (cCfg 2 1.5).epsilon))).sum] /
      (((cCfg 2 1.5).numDecisionSteps : ℝ) - 1) = _
    norm_num [listMean, cCfg]
  rw [show (2 : ℕ) = (cCfg 2 1.5).numDecisionSteps - 1 + 1 from rfl,
    stateAfter_succ, tabnetStep_totalEntropy_of_ge _ _ _ _ _ (by norm_num [cCfg])]
  exact hE1

end ConcreteInstances

section CorrectedClaims

/-- C3 counterexample: with `relaxation_factor = 2 ≥ 1`, mask values in
`[0, 1]` throughout, and three decision steps, the complementary budget entry
of the never-selected second feature reaches `4 > 2` after the two budget
updates: the `[0, relaxation_factor]` invariant claimed by the spec fails. -/
theorem tabnet_budget_exceeds_relaxation_counterexample :
    1 ≤ (cCfg 3 2).relaxationFactor ∧
    (cCfg 3 2).relaxationFactor <
      (((stateAfter (cCfg 3 2) cParams cInputs 2).complementary).getD 0 []).getD 1 0 := by
  constructor
  · norm_num [cCfg]
  · rw [cComp2 3 (by norm_num)]
    norm_num [cCfg]

/-- C4 counterexample: a forward pass whose single generated mask is the
one-hot row `[1, 0]` returns `TotalEntropy = -log(1 + epsilon) < 0`: the
epsilon inside the logarithm makes the penalty of a fully confident mask
slightly negative. -/
theorem tabnet_total_entropy_negative_counterexample :
    (tabnetCall (cCfg 2 1.5) cParams cInputs).2 < 0 := by
  show (stateAfter (cCfg 2 1.5) cParams cInputs
    (cCfg 2 1.5).numDecisionSteps).totalEntropy < 0
  rw [show (cCfg 2 1.5).numDecisionSteps = 2 from rfl, cEntropy2]
  have hpos : 0 < Real.log (1 + (cCfg 2 1.5).epsilon) :=
    Real.log_pos (by norm_num [cCfg])
  linarith

/-- C9 counterexample: with `featureDim = 1`, `outputDim = 3 > 2 =
2 * featureDim` and two decision steps, the forward pass completes without a
shape error (the width-1 decision slice broadcasts against the width-3
accumulator), refuting the claimed failure condition
`outputDim > 2 * featureDim`. -/
theorem tabnet_shape_mismatch_counterexample :
    2 * 1 < 3 ∧ (tabnetCallW 2 1 3 2 2).isSome = true := by
  constructor
  · decide
  · decide

end CorrectedClaims

section Witnesses

theorem tabnet_mask_rows_simplex_witness :
    1 ≤ (cCfg 2 1.5).numFeatures ∧ 0 < (cCfg 2 1.5).numDecisionSteps - 1 ∧
    ∀ r ∈ (stateAfter (cCfg 2 1.5) cParams cInputs (0 + 1)).maskValues,
      (∀ x ∈ r, 0 ≤ x) ∧ r.sum = 1 :=
  ⟨by norm_num [cCfg], by norm_num [cCfg],
    tabnet_mask_rows_simplex (cCfg 2 1.5) cParams cInputs 0
      (by norm_num [cCfg]) (fun v => rfl) (by norm_num [cCfg])⟩

theorem tabnet_single_step_degenerate_witness :
    (cCfg 1 1.5).numDecisionSteps = 1 ∧
    ((tabnetCall (cCfg 1 1.5) cParams cInputs).1 =
      cInputs.map (fun _ => List.replicate (cCfg 1 1.5).outputDim (0 : ℝ)) ∧
     (tabnetCall (cCfg 1 1.5) cParams cInputs).2 = 0) :=
  ⟨rfl, tabnet_single_step_degenerate (cCfg 1 1.5) cParams cInputs rfl⟩

theorem tabnet_budget_bounds_witness :
    1 ≤ (cCfg 3 2).relaxationFactor ∧ 2 ≤ (cCfg 3 2).numDecisionSteps ∧
    ∀ r ∈ (stateAfter (cCfg 3 2) cParams cInputs 2).complementary, ∀ x ∈ r,
      0 ≤ x ∧
      x ≤ (cCfg 3 2).relaxationFactor ^ ((cCfg 3 2).numDecisionSteps - 1) :=
  ⟨by norm_num [cCfg], by norm_num [cCfg],
    tabnet_budget_bounds (cCfg 3 2) cParams cInputs (by norm_num [cCfg]) 2
      (by norm_num [cCfg])⟩

theorem tabnet_total_entropy_lower_bound_witness :
    0 < (cCfg 2 1.5).epsilon ∧
    -Real.log (1 + (cCfg 2 1.5).epsilon) ≤
      (tabnetCall (cCfg 2 1.5) cParams cInputs).2 :=
  ⟨by norm_num [cCfg],
    tabnet_total_entropy_lower_bound (cCfg 2 1.5) cParams cInputs
      (by norm_num [cCfg])⟩

theorem tabnet_entropy_increment_witness :
    0 < (cCfg 2 1.5).numDecisionSteps - 1 ∧
    (((stateAfter (cCfg 2 1.5) cParams cInputs (0 + 1)).totalEntropy =
      (stateAfter (cCfg 2 1.5) cParams cInputs 0).totalEntropy +
        listMean ((stateAfter (cCfg 2 1.5) cParams cInputs (0 + 1)).maskValues.map
          (fun r => (r.map (fun m =>
            -m * Real.log (m + (cCfg 2 1.5).epsilon))).sum)) /
          (((cCfg 2 1.5).numDecisionSteps : ℝ) - 1)) ∧
     (stateAfter (cCfg 2 1.5) cParams cInputs
        (cCfg 2 1.5).numDecisionSteps).totalEntropy =
      (stateAfter (cCfg 2 1.5) cParams cInputs
        ((cCfg 2 1.5).numDecisionSteps - 1)).totalEntropy) :=
  ⟨by norm_num [cCfg],
    tabnet_entropy_increment (cCfg 2 1.5) cParams cInputs 0 (by norm_num [cCfg])⟩

theorem tabnet_budget_update_formula_witness :
    0 < (cCfg 2 1.5).numDecisionSteps - 1 ∧
    (((stateAfter (cCfg 2 1.5) cParams cInputs (0 + 1)).complementary =
      List.zipWith (fun b m => List.zipWith
          (fun bj mj => bj * ((cCfg 2 1.5).relaxationFactor - mj)) b m)
        (stateAfter (cCfg 2 1.5) cParams cInputs 0).complementary
        (stateAfter (cCfg 2 1.5) cParams cInputs (0 + 1)).maskValues) ∧
     (stateAfter (cCfg 2 1.5) cParams cInputs
        (cCfg 2 1.5).numDecisionSteps).complementary =
      (stateAfter (cCfg 2 1.5) cParams cInputs
        ((cCfg 2 1.5).numDecisionSteps - 1)).complementary) :=
  ⟨by norm_num [cCfg],
    tabnet_budget_update_formula (cCfg 2 1.5) cParams cInputs 0
      (by norm_num [cCfg])⟩

theorem tabnet_masked_features_from_original_witness :
    0 < (cCfg 2 1.5).numDecisionSteps - 1 ∧
    (stateAfter (cCfg 2 1.5) cParams cInputs (0 + 1)).maskedFeatures =
      List.zipWith vmul
        (stateAfter (cCfg 2 1.5) cParams cInputs (0 + 1)).maskValues
        (normalizedFeatures cParams cInputs) :=
  ⟨by norm_num [cCfg],
    tabnet_masked_features_from_original (cCfg 2 1.5) cParams cInputs 0
      (by norm_num [cCfg])⟩

theorem tabnet_transform_chain_structure_witness :
    0 < (cCfg 2 1.5).numDecisionSteps - 1 ∧
    ((∀ x : List ℝ,
      featureTransform cParams (cCfg 2 1.5).featureDim x =
        vscale (vadd (glu (cParams.f4.bn (denseApply cParams.f4.weights
          (vscale (vadd (glu (cParams.f3.bn (denseApply cParams.f3.weights
            (vscale (vadd (glu (cParams.f2.bn (denseApply cParams.f2.weights
              (glu (cParams.f1.bn (denseApply cParams.f1.weights x))
                (cCfg 2 1.5).featureDim))) (cCfg 2 1.5).featureDim)
              (glu (cParams.f1.bn (denseApply cParams.f1.weights x))
                (cCfg 2 1.5).featureDim)) sqrtHalf))) (cCfg 2 1.5).featureDim)
            (vscale (vadd (glu (cParams.f2.bn (denseApply cParams.f2.weights
              (glu (cParams.f1.bn (denseApply cParams.f1.weights x))
                (cCfg 2 1.5).featureDim))) (cCfg 2 1.5).featureDim)
              (glu (cParams.f1.bn (denseApply cParams.f1.weights x))
                (cCfg 2 1.5).featureDim)) sqrtHalf)) sqrtHalf)))
          (cCfg 2 1.5).featureDim)
          (vscale (vadd (glu (cParams.f3.bn (denseApply cParams.f3.weights
            (vscale (vadd (glu (cParams.f2.bn (denseApply cParams.f2.weights
              (glu (cParams.f1.bn (denseApply cParams.f1.weights x))
                (cCfg 2 1.5).featureDim))) (cCfg 2 1.5).featureDim)
              (glu (cParams.f1.bn (denseApply cParams.f1.weights x))
                (cCfg 2 1.5).featureDim)) sqrtHalf))) (cCfg 2 1.5).featureDim)
            (vscale (vadd (glu (cParams.f2.bn (denseApply cParams.f2.weights
              (glu (cParams.f1.bn (denseApply cParams.f1.weights x))
                (cCfg 2 1.5).featureDim))) (cCfg 2 1.5).featureDim)
              (glu (cParams.f1.bn (denseApply cParams.f1.weights x))
                (cCfg 2 1.5).featureDim)) sqrtHalf)) sqrtHalf)) sqrtHalf) ∧
    ((stateAfter (cCfg 2 1.5) cParams cInputs (0 + 1)).maskValues =
      (List.zipWith vmul
        (((stateAfter (cCfg 2 1.5) cParams cInputs 0).maskedFeatures.map
            (featureTransform cParams (cCfg 2 1.5).featureDim)).map
          (fun r => cParams.coef.apply (r.drop (cCfg 2 1.5).outputDim)))
        (stateAfter (cCfg 2 1.5) cParams cInputs 0).complementary).map sparsemax) ∧
    (0 < 0 →
      (stateAfter (cCfg 2 1.5) cParams cInputs (0 + 1)).outputAggregated =
        List.zipWith vadd
          (stateAfter (cCfg 2 1.5) cParams cInputs 0).outputAggregated
          ((stateAfter (cCfg 2 1.5) cParams cInputs 0).maskedFeatures.map
            (fun r => ((featureTransform cParams (cCfg 2 1.5).featureDim r).take
              (cCfg 2 1.5).outputDim).map (fun x => max x 0))))) :=
  ⟨by norm_num [cCfg],
    tabnet_transform_chain_structure (cCfg 2 1.5) cParams cInputs 0
      (by norm_num [cCfg])⟩

theorem tabnet_shape_failure_iff_witness :
    2 ≤ 2 ∧ 2 ≤ 2 ∧ ((tabnetCallW 2 2 3 2 2 = none) ↔ 2 < 3) :=
  ⟨le_refl 2, le_refl 2, tabnet_shape_failure_iff 2 2 3 2 (le_refl 2) (le_refl 2)⟩

end Witnesses

end TabNetModel
